import Mathlib

/-!
Shallow embedding of `mbox_split.py` (gmail-mbox2maildir): the RFC 2822 header
decoder `decode_rfc2822` and the label-routing driver `process_mbox`, together
with theorems about the routing policy, the decoder, and the run-level
invariants of the bucket registry.

Modelling conventions:
* Python byte strings are `List Nat` (each element a byte value `0..255`),
  Python text strings are Lean `String`.
* The standard-library collaborators (`email.header.decode_header`, the codec
  registry, `mailbox.mbox`) are external to this repository; they are modelled
  at their interfaces: `decode_header`'s output is the `List Segment` input of
  `decode_rfc2822`, the codec registry is `charsetDecode` restricted to the
  charsets exercised here (any other name raises `LookupError`, modelled as
  `none`), and a mailbox is an association list from bucket key to message
  contents.
* Exceptions are modelled with `Option`/`Except`: a raised exception that the
  code catches becomes a `none` branch, an uncaught one an `Except.error`.
-/

/-! ## Bytes and hex (`binary_value.hex()` in the fallback token) -/

/-- One lowercase hex digit, as produced by Python's `bytes.hex()`. -/
def hexDigitChar (n : Nat) : Char :=
  if n < 10 then Char.ofNat (48 + n) else Char.ofNat (87 + n)

/-- The two hex digits of one byte, as produced by `bytes.hex()`. -/
def byteHexChars (b : Nat) : List Char :=
  [hexDigitChar (b / 16 % 16), hexDigitChar (b % 16)]

/-- `bytes.hex()`: lowercase hex string, two digits per byte. -/
def bytesHex (bv : List Nat) : String :=
  String.mk ((bv.map byteHexChars).flatten)

/-- Line 36 of the source: the deterministic fallback token
`f'HEX({binary_value.hex()})'`. -/
def hexFallback (bv : List Nat) : String :=
  "HEX(" ++ bytesHex bv ++ ")"

/-! ## UTF-8 decoding with `errors='ignore'`

CPython's UTF-8 decoder accepts exactly the well-formed sequences (lead byte
`0xC2..0xDF`, `0xE0..0xEF`, `0xF0..0xF4` with the restricted second-byte
ranges that exclude overlong forms and surrogates); with `errors='ignore'`
an invalid maximal subpart is dropped and decoding continues at the next
byte. -/

/-- A UTF-8 continuation byte (`0x80..0xBF`). -/
def utf8Cont (b : Nat) : Bool := 128 ≤ b && b ≤ 191

/-- Payload bits of a continuation byte. -/
def contVal (b : Nat) : Nat := b - 128

/-- Second-byte constraint of a three-byte sequence with lead byte `b`
(`0xE0` requires `0xA0..0xBF`, `0xED` requires `0x80..0x9F`). -/
def utf8Cont2 (b c : Nat) : Bool :=
  if b = 224 then 160 ≤ c && c ≤ 191
  else if b = 237 then 128 ≤ c && c ≤ 159
  else utf8Cont c

/-- Second-byte constraint of a four-byte sequence with lead byte `b`
(`0xF0` requires `0x90..0xBF`, `0xF4` requires `0x80..0x8F`). -/
def utf8Cont3 (b c : Nat) : Bool :=
  if b = 240 then 144 ≤ c && c ≤ 191
  else if b = 244 then 128 ≤ c && c ≤ 143
  else utf8Cont c

/-- `bytes.decode('utf8', errors='ignore')`, character list: decode valid
sequences, silently drop invalid maximal subparts. Structural recursion on a
fuel bounded below by the byte count; every step consumes at least one byte,
so with `fuel = bv.length` (as in `utf8IgnoreChars`) the fuel never runs
out. -/
def utf8Go : Nat → List Nat → List Char
  | _, [] => []
  | 0, _ :: _ => []
  | fuel + 1, b :: bs =>
    if b < 128 then Char.ofNat b :: utf8Go fuel bs
    else if 194 ≤ b && b ≤ 223 then
      match bs with
      | c :: cs =>
        if utf8Cont c then
          Char.ofNat ((b - 192) * 64 + contVal c) :: utf8Go fuel cs
        else utf8Go fuel (c :: cs)
      | [] => []
    else if 224 ≤ b && b ≤ 239 then
      match bs with
      | c :: cs =>
        if utf8Cont2 b c then
          match cs with
          | d :: ds =>
            if utf8Cont d then
              Char.ofNat ((b - 224) * 4096 + contVal c * 64 + contVal d) ::
                utf8Go fuel ds
            else utf8Go fuel (d :: ds)
          | [] => []
        else utf8Go fuel (c :: cs)
      | [] => []
    else if 240 ≤ b && b ≤ 244 then
      match bs with
      | c :: cs =>
        if utf8Cont3 b c then
          match cs with
          | d :: ds =>
            if utf8Cont d then
              match ds with
              | e :: es =>
                if utf8Cont e then
                  Char.ofNat ((b - 240) * 262144 + contVal c * 4096 +
                    contVal d * 64 + contVal e) :: utf8Go fuel es
                else utf8Go fuel (e :: es)
              | [] => []
            else utf8Go fuel (d :: ds)
          | [] => []
        else utf8Go fuel (c :: cs)
      | [] => []
    else utf8Go fuel bs

/-- `bytes.decode('utf8', errors='ignore')`, character list. -/
def utf8IgnoreChars (bv : List Nat) : List Char :=
  utf8Go bv.length bv

/-- `bytes.decode('utf8', errors='ignore')` as a string. -/
def utf8IgnoreDecode (bv : List Nat) : String :=
  String.mk (utf8IgnoreChars bv)

/-- `bytes.decode('latin-1', errors='ignore')`: every byte is a valid
code point, nothing is ever ignored. -/
def latin1Chars (bv : List Nat) : List Char :=
  bv.map (fun b => Char.ofNat (b % 256))

/-- `bytes.decode('ascii', errors='ignore')`: keep bytes below `0x80`. -/
def asciiIgnoreChars (bv : List Nat) : List Char :=
  (bv.filter (fun b => b < 128)).map Char.ofNat

/-- Line 28 of the source: `binary_value.decode(charset, errors='ignore')`.
This models the stdlib codec registry restricted to the charsets the claims
exercise; looking up any other charset name raises `LookupError` inside the
`try` block, modelled as `none`. (The charset names reaching this call are
lowercase, because `process_mbox` lower-cases the raw header before
decoding.) -/
def charsetDecode (cs : String) (bv : List Nat) : Option String :=
  if cs = "utf-8" || cs = "utf8" || cs = "u8" || cs = "utf_8" then
    some (utf8IgnoreDecode bv)
  else if cs = "latin-1" || cs = "latin1" || cs = "latin_1" || cs = "iso-8859-1" then
    some (String.mk (latin1Chars bv))
  else if cs = "ascii" || cs = "us-ascii" then
    some (String.mk (asciiIgnoreChars bv))
  else none

/-- Line 34 of the source: `binary_value.decode('utf8', errors='ignore')`
inside its own `try`. With `errors='ignore'` this call cannot raise a
decoding error on a bytes object, so the attempt always succeeds; the
`except` branch (line 36, the `HEX(...)` fallback) is kept in
`decodeSegment` for faithfulness but is unreachable. -/
def utf8DecodeAttempt (bv : List Nat) : Option String :=
  some (utf8IgnoreDecode bv)

/-! ## The header decoder `decode_rfc2822` (source lines 10-40) -/

/-- One element of the list returned by `email.header.decode_header`: either
an already-decoded text chunk (`str`), or a byte run with an optional
declared charset. -/
inductive Segment where
  | text (s : String)
  | bytes (payload : List Nat) (charset : Option String)

/-- The body of the `for binary_value, charset in decode_header(...)` loop
(source lines 20-38): a text chunk is appended as-is; a byte run is decoded
with the declared charset when one is present and truthy (catching every
exception), falling back to UTF-8 with `errors='ignore'`, and finally to the
`HEX(...)` token. -/
def decodeSegment : Segment → String
  | Segment.text s => s
  | Segment.bytes payload charset =>
    let attempt : Option String :=
      match charset with
      | some cs => if cs = "" then none else charsetDecode cs payload
      | none => none
    match attempt with
    | some s => s
    | none =>
      match utf8DecodeAttempt payload with
      | some s => s
      | none => hexFallback payload

/-- Source lines 19-40: the chunk loop and the final `''.join(result)` of
`decode_rfc2822`, taking the segment list produced by the external
`email.header.decode_header` call of line 20. This part of the function
never raises; the full function boundary, which includes the
`decode_header` call itself, is `decode_rfc2822_full` below. -/
def decode_rfc2822 (segs : List Segment) : String :=
  String.join (segs.map decodeSegment)

/-- The outcome of the external stdlib call
`email.header.decode_header(header_value)` at source line 20: for a
well-formed header value it returns the chunk list; for a malformed
encoded-word it raises `email.errors.HeaderParseError` — for example,
`decode_header` on the value `=?utf-8?b?abcde?=` raises
`HeaderParseError: Base64 decoding error` (this program makes such inputs
likelier, because `process_mbox` lower-cases the raw header before decoding,
corrupting base64 payloads). -/
inductive DecodeHeaderResult where
  | chunks (segs : List Segment)
  | headerParseError

/-- Source lines 10-40 at the full function boundary: the `decode_header`
call of line 20 followed by the chunk loop. No handler inside
`decode_rfc2822` catches `HeaderParseError`, so when `decode_header` raises,
the exception escapes the function (`Except.error`); when `decode_header`
returns, the loop of lines 19-40 runs and always produces a string. -/
def decode_rfc2822_full : DecodeHeaderResult → Except Unit String
  | DecodeHeaderResult.headerParseError => Except.error ()
  | DecodeHeaderResult.chunks segs => Except.ok (decode_rfc2822 segs)

/-! ## Substring test (Python's `"inbox" in gmail_labels`) -/

/-- `List` version of "n is a leading prefix of h". -/
def listIsPre : List Char → List Char → Bool
  | [], _ => true
  | _ :: _, [] => false
  | a :: as, b :: bs => a == b && listIsPre as bs

/-- `n` occurs contiguously somewhere in `h`. -/
def subAt (n : List Char) : List Char → Bool
  | [] => listIsPre n []
  | c :: cs => listIsPre n (c :: cs) || subAt n cs

/-- Python's `needle in haystack` on strings: contiguous substring test. -/
def pyContains (needle hay : String) : Bool :=
  subAt needle.data hay.data

/-! ## Comma splitting (Python's `s.split(',')`) -/

/-- `s.split(',')` on the character list: always returns at least one token;
splitting the empty list yields `[[]]`, exactly as `''.split(',') == ['']`
in Python. -/
def splitComma : List Char → List (List Char)
  | [] => [[]]
  | c :: cs =>
    if c = ',' then [] :: splitComma cs
    else
      match splitComma cs with
      | t :: ts => (c :: t) :: ts
      | [] => [[c]]

/-- Joining with commas, the left inverse of `splitComma`. -/
def joinComma : List (List Char) → List Char
  | [] => []
  | [t] => t
  | t :: ts => t ++ ',' :: joinComma ts

/-- `gmail_labels.split(',')` at the string level (source line 66). -/
def pySplit (s : String) : List String :=
  (splitComma s.data).map (fun t => String.mk t)

/-! ## Title-casing and sanitization (source line 68) -/

/-- `str.title()` on a character list (ASCII model of cased characters):
an alphabetic character starting a run is upper-cased, later characters of
the run are lower-cased, everything else is kept and ends the run. -/
def pyTitleChars : Bool → List Char → List Char
  | _, [] => []
  | prevCased, c :: cs =>
    if c.isAlpha then
      (if prevCased then c.toLower else c.toUpper) :: pyTitleChars true cs
    else
      c :: pyTitleChars false cs

/-- `label.title()`. -/
def pyTitle (s : String) : String :=
  String.mk (pyTitleChars false s.data)

/-- `os.pathsep` on a POSIX platform. -/
def pathsep : Char := ':'

/-- `s.replace(old, new)` for a single-character pattern (the only use in the
source is `replace(os.pathsep, '.')`). -/
def pyReplaceChar (s : String) (old new : Char) : String :=
  String.mk (s.data.map (fun c => if c = old then new else c))

/-- `label.title().replace(os.pathsep, '.')`: the sanitized distinguishing
name of a dynamic bucket. -/
def sanitizeLabel (l : String) : String :=
  pyReplaceChar (pyTitle l) pathsep '.'

/-- Source line 68: the dynamic bucket key / destination file name
`f"{prefix}{label.title().replace(os.pathsep, '.')}.mbox"`. -/
def dynBucketName (pfx l : String) : String :=
  pfx ++ sanitizeLabel l ++ ".mbox"

/-! ## The routing decision (source lines 56-71) -/

/-- Source line 67: the exclusion list
`["important", "unread", "starred", "newsletters"]`. -/
def exclusionList : List String :=
  ["important", "unread", "starred", "newsletters"]

/-- `label not in [...]` negated: membership of a token in the exclusion
list (exact string match). -/
def excludedTok (t : String) : Bool :=
  decide (t ∈ exclusionList)

/-- The pure routing decision of source lines 56-71 on the final
`gmail_labels` string: `inbox` substring wins, then `sent` substring, then
the first comma-token outside the exclusion list names a dynamic bucket,
and otherwise the initial `target = "archive"` survives. -/
def route (pfx labels : String) : String :=
  if pyContains "inbox" labels then "inbox"
  else if pyContains "sent" labels then "sent"
  else
    match (pySplit labels).find? (fun l => !(excludedTok l)) with
    | some l => dynBucketName pfx l
    | none => "archive"

/-! ## The driver `process_mbox` (source lines 42-75) -/

/-- How `boxes[target].add(message)` behaves for a given message: success,
a raised `HeaderParseError` (caught at line 74), or any other raised
exception (caught nowhere). -/
inductive AddOutcome where
  | ok
  | headerParseError
  | otherError
deriving DecidableEq

/-- A message borrowed from the source container: its identity, the
segments that `decode_header` yields for its lower-cased `X-Gmail-Labels`
value (`none` when the header is absent or empty, so that
`message.get("X-Gmail-Labels", "").lower()` is falsy and line 59 is
skipped), and the behaviour of appending it to a destination mbox. -/
structure Message where
  mid : Nat
  labelSegs : Option (List Segment)
  addOutcome : AddOutcome

/-- Source lines 57-59: the `gmail_labels` value at the classification
point — `""` for an absent/empty header, otherwise the header decoded by
`decode_rfc2822`. -/
def gmailLabelsOf (m : Message) : String :=
  match m.labelSegs with
  | none => ""
  | some segs => decode_rfc2822 segs

/-- The `boxes` dict: bucket key to the list of messages appended so far,
in insertion order of the keys. -/
abbrev Registry : Type := List (String × List Message)

/-- The keys of the registry, in insertion order. -/
def keysOf (b : Registry) : List String :=
  b.map Prod.fst

/-- `target in boxes` (dict key membership). -/
def hasKey (b : Registry) (k : String) : Bool :=
  decide (k ∈ keysOf b)

/-- Source lines 69-70: `if target not in boxes: boxes[target] = mailbox.mbox(target, None, True)` —
register a fresh empty bucket unless the key already exists. -/
def registerBox (b : Registry) (t : String) : Registry :=
  if hasKey b t then b else b ++ [(t, [])]

/-- `boxes[target].add(message)`: append the message to the entry with the
given key. From the initial state the key is always present (the three fixed
keys are created eagerly and a dynamic key is registered before use), so the
empty case is unreachable in `process_mbox`. -/
def appendMsg : Registry → String → Message → Registry
  | [], _, _ => []
  | e :: es, k, m =>
    if e.1 = k then (e.1, e.2 ++ [m]) :: es else e :: appendMsg es k m

/-- Source lines 56-71 with the registration side effect: the chosen target
key together with the registry after the lazy creation of a dynamic
bucket. -/
def classify (pfx : String) (b : Registry) (labels : String) : String × Registry :=
  if pyContains "inbox" labels then ("inbox", b)
  else if pyContains "sent" labels then ("sent", b)
  else
    match (pySplit labels).find? (fun l => !(excludedTok l)) with
    | some l => (dynBucketName pfx l, registerBox b (dynBucketName pfx l))
    | none => ("archive", b)

/-- One item yielded by iterating `mailbox.mbox(infile)`: a message, or an
exception raised by the iteration itself (uncaught in `process_mbox`). -/
inductive SourceItem where
  | msg (m : Message)
  | iterError

/-- The driver state: the `boxes` dict and the informational lines printed
so far. -/
structure ProcState where
  boxes : Registry
  log : List String

/-- The line printed at source line 75 (the interpolated exception text is
not modelled). -/
def skipLine : String := "HeaderParseError - Message skipped."

/-- One iteration of the `for message in mailbox.mbox(infile)` loop
(source lines 55-75). `Except.error` is an exception escaping
`process_mbox`: an iteration failure, or any exception from `add` other
than `HeaderParseError`; `HeaderParseError` is caught, one line is printed
and the message is appended nowhere. -/
def stepItem (pfx : String) (st : ProcState) : SourceItem → Except ProcState ProcState
  | SourceItem.iterError => Except.error st
  | SourceItem.msg m =>
    let p := classify pfx st.boxes (gmailLabelsOf m)
    match m.addOutcome with
    | AddOutcome.ok => Except.ok ⟨appendMsg p.2 p.1 m, st.log⟩
    | AddOutcome.headerParseError => Except.ok ⟨p.2, st.log ++ [skipLine]⟩
    | AddOutcome.otherError => Except.error ⟨p.2, st.log⟩

/-- The source iteration loop: process items in order, stopping at the
first escaping exception. -/
def processLoop (pfx : String) : List SourceItem → ProcState → Except ProcState ProcState
  | [], st => Except.ok st
  | it :: rest, st =>
    match stepItem pfx st it with
    | Except.ok st' => processLoop pfx rest st'
    | Except.error st' => Except.error st'

/-- Source lines 49-53: the three fixed buckets, opened eagerly. -/
def initBoxes : Registry :=
  [("inbox", []), ("sent", []), ("archive", [])]

/-- Source lines 42-75: `process_mbox`, modulo file I/O — the run over the
items of the source container starting from the three fixed buckets and an
empty log. -/
def process_mbox (pfx : String) (items : List SourceItem) : Except ProcState ProcState :=
  processLoop pfx items ⟨initBoxes, []⟩

/-- The driver state when the run ends, normally or by an escaping
exception. -/
def finalState : Except ProcState ProcState → ProcState
  | Except.ok st => st
  | Except.error st => st

/-- Number of occurrences of the message identity `i` in one bucket's
contents. -/
def midCountIn (ms : List Message) (i : Nat) : Nat :=
  (ms.filter (fun m => decide (m.mid = i))).length

/-- Number of occurrences of the message identity `i` across all buckets of
the registry. -/
def appearCount (b : Registry) (i : Nat) : Nat :=
  (b.map (fun e => midCountIn e.2 i)).sum

/-- Among `msgs`, how many messages have identity `i` and a succeeding
append. -/
def countOkMid (msgs : List Message) (i : Nat) : Nat :=
  ((msgs.filter (fun x => decide (x.mid = i))).filter
    (fun x => decide (x.addOutcome = AddOutcome.ok))).length

/-- The three fixed bucket keys are registered (true from the initial state
on, so that `boxes[target]` never raises `KeyError` for a fixed target). -/
def fixedPresent (b : Registry) : Prop :=
  hasKey b "inbox" = true ∧ hasKey b "sent" = true ∧ hasKey b "archive" = true

/-! ## Helper lemmas: strings -/

theorem str_empty_append (s : String) : "" ++ s = s := rfl

theorem str_append_empty (s : String) : s ++ "" = s := by
  cases s with
  | mk d => exact congrArg String.mk (List.append_nil d)

@[simp] theorem join_singleton (s : String) : String.join [s] = s := by
  simp [String.join]

/-! ## Helper lemmas: substring occurrence -/

theorem listIsPre_split (c : Char) :
    ∀ (n x y : List Char), c ∉ n → listIsPre n (x ++ c :: y) = true →
      listIsPre n x = true := by
  intro n
  induction n with
  | nil => intro x y _ _; rfl
  | cons b n' ih =>
    intro x y hc h
    cases x with
    | nil =>
      exfalso
      simp only [List.nil_append, listIsPre, Bool.and_eq_true, beq_iff_eq] at h
      exact hc (h.1 ▸ List.mem_cons_self b n')
    | cons a x' =>
      simp only [List.cons_append, listIsPre, Bool.and_eq_true, beq_iff_eq] at h ⊢
      refine ⟨h.1, ih x' y (fun hm => hc (List.mem_cons_of_mem b hm)) h.2⟩

theorem subAt_split (c : Char) (n : List Char) (hc : c ∉ n) :
    ∀ x y, subAt n (x ++ c :: y) = true → subAt n x = true ∨ subAt n y = true := by
  intro x
  induction x with
  | nil =>
    intro y h
    simp only [List.nil_append, subAt, Bool.or_eq_true] at h
    rcases h with h | h
    · cases n with
      | nil => exact Or.inl rfl
      | cons b n' =>
        exfalso
        simp only [listIsPre, Bool.and_eq_true, beq_iff_eq] at h
        exact hc (h.1 ▸ List.mem_cons_self b n')
    · exact Or.inr h
  | cons a x' ih =>
    intro y h
    simp only [List.cons_append, subAt, Bool.or_eq_true] at h
    rcases h with h | h
    · have := listIsPre_split c n (a :: x') y hc (by simpa using h)
      exact Or.inl (by simp [subAt, this])
    · rcases ih y h with h' | h'
      · exact Or.inl (by simp [subAt, h'])
      · exact Or.inr h'

theorem splitComma_ne_nil : ∀ l : List Char, splitComma l ≠ [] := by
  intro l
  cases l with
  | nil => simp [splitComma]
  | cons c cs =>
    by_cases h : c = ','
    · simp [splitComma, h]
    · simp only [splitComma, h, if_false]
      cases hs : splitComma cs <;> simp

theorem joinComma_splitComma : ∀ l : List Char, joinComma (splitComma l) = l := by
  intro l
  induction l with
  | nil => rfl
  | cons c cs ih =>
    by_cases h : c = ','
    · subst h
      simp only [splitComma, if_true]
      cases hs : splitComma cs with
      | nil => exact absurd hs (splitComma_ne_nil cs)
      | cons t ts =>
        rw [hs] at ih
        simpa [joinComma] using ih
    · simp only [splitComma, h, if_false]
      cases hs : splitComma cs with
      | nil => exact absurd hs (splitComma_ne_nil cs)
      | cons t ts =>
        rw [hs] at ih
        cases ts with
        | nil => simpa [joinComma] using ih
        | cons u us => simpa [joinComma] using ih

theorem no_sub_join (n : List Char) (hne : n ≠ []) (hcm : (',' : Char) ∉ n) :
    ∀ toks : List (List Char), (∀ t ∈ toks, subAt n t = false) →
      subAt n (joinComma toks) = false := by
  intro toks
  induction toks with
  | nil =>
    intro _
    cases n with
    | nil => exact absurd rfl hne
    | cons b n' => rfl
  | cons t ts ih =>
    intro h
    cases ts with
    | nil => simpa [joinComma] using h t (List.mem_cons_self t [])
    | cons t' ts' =>
      have hj : joinComma (t :: t' :: ts') = t ++ ',' :: joinComma (t' :: ts') := rfl
      rw [hj]
      cases hval : subAt n (t ++ ',' :: joinComma (t' :: ts')) with
      | false => rfl
      | true =>
        exfalso
        rcases subAt_split ',' n hcm t (joinComma (t' :: ts')) hval with h' | h'
        · exact absurd h' (by simp [h t (List.mem_cons_self t _)])
        · have := ih (fun u hu => h u (List.mem_cons_of_mem t hu))
          exact absurd h' (by simp [this])

/-! ## Helper lemmas: find? -/

theorem find_first {α : Type} (p : α → Bool) :
    ∀ (pre : List α) (t : α) (post : List α), (∀ u ∈ pre, p u = false) →
      p t = true → List.find? p (pre ++ t :: post) = some t := by
  intro pre
  induction pre with
  | nil => intro t post _ ht; simp [List.find?, ht]
  | cons u us ih =>
    intro t post hpre ht
    have hu := hpre u (List.mem_cons_self u us)
    simp only [List.cons_append, List.find?, hu]
    exact ih t post (fun v hv => hpre v (List.mem_cons_of_mem u hv)) ht

theorem find_none {α : Type} (p : α → Bool) :
    ∀ l : List α, (∀ x ∈ l, p x = false) → l.find? p = none := by
  intro l
  induction l with
  | nil => intro _; rfl
  | cons a as ih =>
    intro h
    have ha := h a (List.mem_cons_self a as)
    simp only [List.find?, ha]
    exact ih (fun x hx => h x (List.mem_cons_of_mem a hx))

/-! ## Helper lemmas: the bucket registry -/

theorem hasKey_iff (b : Registry) (k : String) : hasKey b k = true ↔ k ∈ keysOf b := by
  simp [hasKey]

theorem hasKey_false_iff (b : Registry) (k : String) :
    hasKey b k = false ↔ k ∉ keysOf b := by
  simp [hasKey]

theorem keysOf_appendMsg (k : String) (m : Message) :
    ∀ b : Registry, keysOf (appendMsg b k m) = keysOf b := by
  intro b
  induction b with
  | nil => rfl
  | cons e es ih =>
    by_cases h : e.1 = k
    · simp [appendMsg, h, keysOf]
    · simp only [appendMsg, h, if_false, keysOf, List.map_cons]
      simpa [keysOf] using ih

theorem keysOf_registerBox (b : Registry) (t : String) :
    keysOf (registerBox b t) = if hasKey b t then keysOf b else keysOf b ++ [t] := by
  unfold registerBox
  split <;> simp [keysOf]

theorem nodup_registerBox (b : Registry) (t : String) (h : (keysOf b).Nodup) :
    (keysOf (registerBox b t)).Nodup := by
  rw [keysOf_registerBox]
  split
  · exact h
  · rename_i hk
    have ht : t ∉ keysOf b := (hasKey_false_iff b t).mp (by simpa using hk)
    simp [List.nodup_append, h, ht]

theorem classify_snd_cases (pfx : String) (b : Registry) (l : String) :
    (classify pfx b l).2 = b ∨
      (classify pfx b l).2 = registerBox b (classify pfx b l).1 := by
  unfold classify
  split
  · exact Or.inl rfl
  · split
    · exact Or.inl rfl
    · split
      · exact Or.inr rfl
      · exact Or.inl rfl

theorem nodup_classify (pfx : String) (b : Registry) (l : String)
    (h : (keysOf b).Nodup) : (keysOf (classify pfx b l).2).Nodup := by
  rcases classify_snd_cases pfx b l with hc | hc <;> rw [hc]
  · exact h
  · exact nodup_registerBox b _ h

theorem hasKey_registerBox_self (b : Registry) (t : String) :
    hasKey (registerBox b t) t = true := by
  unfold registerBox
  split
  · assumption
  · rw [hasKey_iff]
    simp [keysOf]

theorem hasKey_registerBox_mono (b : Registry) (t k : String)
    (h : hasKey b k = true) : hasKey (registerBox b t) k = true := by
  rw [hasKey_iff, keysOf_registerBox]
  split
  · exact (hasKey_iff b k).mp h
  · exact List.mem_append_left _ ((hasKey_iff b k).mp h)

theorem hasKey_appendMsg (b : Registry) (k' k : String) (m : Message) :
    hasKey (appendMsg b k' m) k = hasKey b k := by
  simp [hasKey, keysOf_appendMsg]

theorem hasKey_classify_mono (pfx : String) (b : Registry) (l k : String)
    (h : hasKey b k = true) : hasKey (classify pfx b l).2 k = true := by
  rcases classify_snd_cases pfx b l with hc | hc <;> rw [hc]
  · exact h
  · exact hasKey_registerBox_mono b _ k h

theorem classify_target_present (pfx : String) (b : Registry) (l : String)
    (hb : fixedPresent b) :
    hasKey (classify pfx b l).2 (classify pfx b l).1 = true := by
  unfold classify
  split
  · exact hb.1
  · split
    · exact hb.2.1
    · split
      · exact hasKey_registerBox_self b _
      · exact hb.2.2

theorem fixedPresent_classify (pfx : String) (b : Registry) (l : String)
    (hb : fixedPresent b) : fixedPresent (classify pfx b l).2 :=
  ⟨hasKey_classify_mono pfx b l _ hb.1, hasKey_classify_mono pfx b l _ hb.2.1,
    hasKey_classify_mono pfx b l _ hb.2.2⟩

theorem fixedPresent_appendMsg (b : Registry) (k : String) (m : Message)
    (hb : fixedPresent b) : fixedPresent (appendMsg b k m) := by
  refine ⟨?_, ?_, ?_⟩ <;> rw [hasKey_appendMsg]
  · exact hb.1
  · exact hb.2.1
  · exact hb.2.2

/-! ## Helper lemmas: appearance counts -/

theorem appearCount_append_empty_entry (b : Registry) (t : String) (i : Nat) :
    appearCount (b ++ [(t, [])]) i = appearCount b i := by
  simp [appearCount, midCountIn]

theorem appearCount_registerBox (b : Registry) (t : String) (i : Nat) :
    appearCount (registerBox b t) i = appearCount b i := by
  unfold registerBox
  split
  · rfl
  · exact appearCount_append_empty_entry b t i

theorem appearCount_classify (pfx : String) (b : Registry) (l : String) (i : Nat) :
    appearCount (classify pfx b l).2 i = appearCount b i := by
  rcases classify_snd_cases pfx b l with hc | hc <;> rw [hc]
  exact appearCount_registerBox b _ i

theorem appearCount_cons (e : String × List Message) (es : Registry) (i : Nat) :
    appearCount (e :: es) i = midCountIn e.2 i + appearCount es i := by
  simp [appearCount]

theorem appearCount_appendMsg (k : String) (m : Message) (i : Nat) :
    ∀ b : Registry, hasKey b k = true →
      appearCount (appendMsg b k m) i =
        appearCount b i + (if m.mid = i then 1 else 0) := by
  intro b
  induction b with
  | nil => intro h; simp [hasKey, keysOf] at h
  | cons e es ih =>
    intro h
    by_cases hek : e.1 = k
    · rw [show appendMsg (e :: es) k m = (e.1, e.2 ++ [m]) :: es from by
        simp [appendMsg, hek]]
      rw [appearCount_cons, appearCount_cons]
      have hmc : midCountIn (e.2 ++ [m]) i =
          midCountIn e.2 i + (if m.mid = i then 1 else 0) := by
        by_cases hmi : m.mid = i <;> simp [midCountIn, List.filter_append, hmi]
      rw [hmc]
      omega
    · have hes : hasKey es k = true := by
        rw [hasKey_iff] at h ⊢
        simp only [keysOf, List.map_cons, List.mem_cons] at h
        rcases h with h | h
        · exact absurd h.symm hek
        · exact h
      rw [show appendMsg (e :: es) k m = e :: appendMsg es k m from by
        simp [appendMsg, hek]]
      rw [appearCount_cons, appearCount_cons, ih hes]
      omega

/-! ## Helper lemmas: the processing loop -/

theorem stepItem_ok_eq (pfx : String) (st : ProcState) (m : Message)
    (h : m.addOutcome = AddOutcome.ok) :
    stepItem pfx st (SourceItem.msg m) =
      Except.ok ⟨appendMsg (classify pfx st.boxes (gmailLabelsOf m)).2
        (classify pfx st.boxes (gmailLabelsOf m)).1 m, st.log⟩ := by
  simp [stepItem, h]

theorem stepItem_skip_eq (pfx : String) (st : ProcState) (m : Message)
    (h : m.addOutcome = AddOutcome.headerParseError) :
    stepItem pfx st (SourceItem.msg m) =
      Except.ok ⟨(classify pfx st.boxes (gmailLabelsOf m)).2,
        st.log ++ [skipLine]⟩ := by
  simp [stepItem, h]

theorem stepItem_err_eq (pfx : String) (st : ProcState) (m : Message)
    (h : m.addOutcome = AddOutcome.otherError) :
    stepItem pfx st (SourceItem.msg m) =
      Except.error ⟨(classify pfx st.boxes (gmailLabelsOf m)).2, st.log⟩ := by
  simp [stepItem, h]

theorem processLoop_nodup (pfx : String) :
    ∀ (items : List SourceItem) (st : ProcState), (keysOf st.boxes).Nodup →
      (keysOf (finalState (processLoop pfx items st)).boxes).Nodup := by
  intro items
  induction items with
  | nil => intro st h; simpa [processLoop, finalState] using h
  | cons it rest ih =>
    intro st h
    cases it with
    | iterError => simpa [processLoop, stepItem, finalState] using h
    | msg m =>
      cases hao : m.addOutcome with
      | ok =>
        rw [show processLoop pfx (SourceItem.msg m :: rest) st =
            processLoop pfx rest ⟨appendMsg (classify pfx st.boxes (gmailLabelsOf m)).2
              (classify pfx st.boxes (gmailLabelsOf m)).1 m, st.log⟩ from by
          simp [processLoop, stepItem_ok_eq pfx st m hao]]
        apply ih
        simp only [keysOf_appendMsg]
        exact nodup_classify pfx st.boxes (gmailLabelsOf m) h
      | headerParseError =>
        rw [show processLoop pfx (SourceItem.msg m :: rest) st =
            processLoop pfx rest ⟨(classify pfx st.boxes (gmailLabelsOf m)).2,
              st.log ++ [skipLine]⟩ from by
          simp [processLoop, stepItem_skip_eq pfx st m hao]]
        apply ih
        exact nodup_classify pfx st.boxes (gmailLabelsOf m) h
      | otherError =>
        rw [show processLoop pfx (SourceItem.msg m :: rest) st =
            Except.error ⟨(classify pfx st.boxes (gmailLabelsOf m)).2, st.log⟩ from by
          simp [processLoop, stepItem_err_eq pfx st m hao]]
        exact nodup_classify pfx st.boxes (gmailLabelsOf m) h

theorem countOkMid_cons (m : Message) (ms : List Message) (i : Nat) :
    countOkMid (m :: ms) i =
      (if m.mid = i ∧ m.addOutcome = AddOutcome.ok then 1 else 0) +
        countOkMid ms i := by
  by_cases h1 : m.mid = i <;> by_cases h2 : m.addOutcome = AddOutcome.ok <;>
    simp [countOkMid, h1, h2] <;> omega

theorem processLoop_count (pfx : String) (i : Nat) :
    ∀ (msgs : List Message) (st stf : ProcState), fixedPresent st.boxes →
      processLoop pfx (msgs.map SourceItem.msg) st = Except.ok stf →
      appearCount stf.boxes i = appearCount st.boxes i + countOkMid msgs i := by
  intro msgs
  induction msgs with
  | nil =>
    intro st stf _ h
    simp only [List.map_nil, processLoop] at h
    cases h
    simp [countOkMid]
  | cons m ms ih =>
    intro st stf hfix h
    simp only [List.map_cons, processLoop] at h
    cases hao : m.addOutcome with
    | ok =>
      rw [stepItem_ok_eq pfx st m hao] at h
      have hst' := ih ⟨appendMsg (classify pfx st.boxes (gmailLabelsOf m)).2
          (classify pfx st.boxes (gmailLabelsOf m)).1 m, st.log⟩ stf
        (fixedPresent_appendMsg _ _ m
          (fixedPresent_classify pfx st.boxes (gmailLabelsOf m) hfix)) h
      rw [hst'] at *
      have hadd := appearCount_appendMsg (classify pfx st.boxes (gmailLabelsOf m)).1 m i
        (classify pfx st.boxes (gmailLabelsOf m)).2
        (classify_target_present pfx st.boxes (gmailLabelsOf m) hfix)
      rw [countOkMid_cons]
      simp only [hadd, appearCount_classify, hao, and_true]
      by_cases hmi : m.mid = i <;> simp [hmi] <;> omega
    | headerParseError =>
      rw [stepItem_skip_eq pfx st m hao] at h
      have hst' := ih ⟨(classify pfx st.boxes (gmailLabelsOf m)).2,
          st.log ++ [skipLine]⟩ stf
        (fixedPresent_classify pfx st.boxes (gmailLabelsOf m) hfix) h
      rw [hst', countOkMid_cons]
      simp [appearCount_classify, hao]
    | otherError =>
      rw [stepItem_err_eq pfx st m hao] at h
      simp at h

/-! ## Remaining helper lemmas for the routing claims -/

theorem excl_token_no_needles (t : List Char) (h : String.mk t ∈ exclusionList) :
    subAt "inbox".data t = false ∧ subAt "sent".data t = false := by
  simp only [exclusionList, List.mem_cons, List.not_mem_nil, or_false] at h
  rcases h with h | h | h | h <;>
    (have h2 : t = _ := congrArg String.data h; subst h2; exact ⟨by decide, by decide⟩)

theorem map_sanitize_no_pathsep :
    ∀ l : List Char,
      ((l.map (fun c => if c = pathsep then '.' else c)).contains pathsep) = false := by
  intro l
  induction l with
  | nil => rfl
  | cons c cs ih =>
    simp only [List.map_cons, List.contains_cons, Bool.or_eq_false_iff]
    refine ⟨?_, ih⟩
    by_cases hc : c = pathsep
    · simp only [hc, if_true]
      decide
    · simp only [hc, if_false]
      exact beq_eq_false_iff_ne.mpr (fun h => hc h.symm)

/-! ## Claim theorems -/

/-- Claim C3 (confirmed): routing priority is strict — any label text
containing the substring "inbox" routes to the fixed `inbox` bucket, and any
label text not containing "inbox" but containing "sent" routes to the fixed
`sent` bucket, regardless of what else the text contains. -/
theorem route_priority_order (pfx labels : String) :
    (pyContains "inbox" labels = true → route pfx labels = "inbox") ∧
    (pyContains "inbox" labels = false → pyContains "sent" labels = true →
      route pfx labels = "sent") := by
  constructor
  · intro h
    simp [route, h]
  · intro h1 h2
    simp [route, h1, h2]

/-- Witness for C3 at the concrete inputs of the spec: a label containing
both "inbox" and "sent" routes to `inbox`; a label containing "sent" and a
non-excluded token routes to `sent`. -/
theorem route_priority_order_wit :
    route "p" "inbox,sent" = "inbox" ∧ route "p" "sent,work" = "sent" :=
  ⟨(route_priority_order "p" "inbox,sent").1 (by decide),
    (route_priority_order "p" "sent,work").2 (by decide) (by decide)⟩

/-- Claim C4 (confirmed): when the label text contains neither "inbox" nor
"sent", the comma-split tokens are scanned in order and the first token not
in the exclusion list determines the dynamic bucket; everything after that
token is ignored. -/
theorem route_first_qualifying_token (pfx labels : String)
    (pre : List String) (t : String) (post : List String)
    (h1 : pyContains "inbox" labels = false)
    (h2 : pyContains "sent" labels = false)
    (h3 : pySplit labels = pre ++ t :: post)
    (h4 : ∀ u ∈ pre, excludedTok u = true)
    (h5 : excludedTok t = false) :
    route pfx labels = dynBucketName pfx t := by
  have hfind : (pySplit labels).find? (fun l => !(excludedTok l)) = some t := by
    rw [h3]
    exact find_first _ pre t post (fun u hu => by simp [h4 u hu]) (by simp [h5])
  simp [route, h1, h2, hfind]

/-- Witness for C4 at the spec's concrete input: "important,unread,projectx"
routes to the dynamic bucket named from "projectx", i.e. the file
`split_Projectx.mbox`. -/
theorem route_first_qualifying_token_wit :
    route "split_" "important,unread,projectx" = dynBucketName "split_" "projectx" ∧
    dynBucketName "split_" "projectx" = "split_Projectx.mbox" :=
  ⟨route_first_qualifying_token "split_" "important,unread,projectx"
      ["important", "unread"] "projectx" [] (by decide) (by decide) (by decide)
      (by decide) (by decide),
    by decide⟩

/-- Claim C5 (confirmed): the dynamic bucket name embeds the title-cased,
path-separator-sanitized token as `{prefix}{SanitizedLabel}.mbox`, and the
sanitized label never contains the platform path-separator character. -/
theorem dynBucket_sanitized_no_pathsep (pfx tok : String) :
    dynBucketName pfx tok = pfx ++ sanitizeLabel tok ++ ".mbox" ∧
    (sanitizeLabel tok).data.contains pathsep = false :=
  ⟨rfl, map_sanitize_no_pathsep (pyTitle tok).data⟩

/-- Claim C8 (confirmed): decoding is the identity on plain input — a header
value with no encoded segments (a single already-decoded text chunk) decodes
to itself, and empty input yields empty output. -/
theorem decode_plain_identity (s : String) :
    decode_rfc2822 [Segment.text s] = s ∧ decode_rfc2822 [] = "" := by
  refine ⟨?_, rfl⟩
  simp [decode_rfc2822, decodeSegment]

/-- Claim C2 (corrected), counterexample, refuting both halves of the claim.
Totality fails at the function's boundary: when the `decode_header` call of
line 20 raises `HeaderParseError` (as it does on the concrete header value
`=?utf-8?b?abcde?=`, a base64 decoding error), the exception escapes
`decode_rfc2822`, which catches nothing outside the charset attempt.
Non-emptiness fails too: the single byte `0xFF` tagged with the unsupported
charset name "x-bogus" is non-empty malformed input, yet the result is the
empty string — the declared-charset attempt raises (unknown codec), and
UTF-8 decoding with `errors='ignore'` drops the invalid byte without
raising, so the `HEX(...)` fallback never fires. -/
theorem decode_not_total_cex :
    decode_rfc2822_full DecodeHeaderResult.headerParseError = Except.error () ∧
    charsetDecode "x-bogus" [255] = none ∧
    decode_rfc2822 [Segment.bytes [255] (some "x-bogus")] = "" ∧
    ([255] : List Nat) ≠ [] :=
  ⟨rfl, by decide, by decide, by decide⟩

/-- Claim C2 (corrected), amended: the decoder is total only past the
`decode_header` call — whenever `decode_header` returns a chunk list, the
loop raises nothing and a string is returned, but a `HeaderParseError` from
`decode_header` itself escapes the function, so `decode` is not total at its
boundary. And for a byte sequence tagged with an unsupported or garbled
encoding name the result is the UTF-8 recovery of the bytes with invalid
bytes ignored — which may be empty even for non-empty input. -/
theorem decode_rfc2822_amended (bv : List Nat) (cs : String) (segs : List Segment)
    (h : charsetDecode cs bv = none) :
    decode_rfc2822_full (DecodeHeaderResult.chunks segs) =
      Except.ok (decode_rfc2822 segs) ∧
    decode_rfc2822 [Segment.bytes bv (some cs)] = utf8IgnoreDecode bv := by
  refine ⟨rfl, ?_⟩
  have hseg : decodeSegment (Segment.bytes bv (some cs)) = utf8IgnoreDecode bv := by
    by_cases hcs : cs = "" <;> simp [decodeSegment, hcs, h, utf8DecodeAttempt]
  simp [decode_rfc2822, hseg]

/-- Witness for the amended C2 at concrete inputs. -/
theorem decode_rfc2822_amended_wit :
    decode_rfc2822_full (DecodeHeaderResult.chunks [Segment.text "hi"]) =
      Except.ok (decode_rfc2822 [Segment.text "hi"]) ∧
    decode_rfc2822 [Segment.bytes [255] (some "x-bogus")] = utf8IgnoreDecode [255] :=
  decode_rfc2822_amended [255] "x-bogus" [Segment.text "hi"] (by decide)

/-- Claim C1 (corrected), counterexample: a message whose decoded,
lower-cased label text is empty does NOT route to `archive` — Python's
`"".split(",")` is `[""]` and the empty token is not in the exclusion list,
so the empty label routes to the dynamic bucket `{prefix}.mbox`. -/
theorem route_empty_label_dynamic_cex :
    route "split_" "" = "split_.mbox" ∧ ("split_.mbox" : String) ≠ "archive" :=
  ⟨by decide, by decide⟩

/-- Claim C1 (corrected), amended: if every comma-split token of the label
text is in the exclusion set, the routing decision selects `archive`; the
empty label text instead routes to the dynamic bucket `{prefix}.mbox`
derived from the empty token. -/
theorem route_fallback_amended (pfx labels : String) :
    ((∀ t ∈ pySplit labels, t ∈ exclusionList) → route pfx labels = "archive") ∧
    (labels = "" → route pfx labels = pfx ++ ".mbox") := by
  constructor
  · intro h
    have htok : ∀ t ∈ splitComma labels.data,
        subAt "inbox".data t = false ∧ subAt "sent".data t = false := by
      intro t ht
      refine excl_token_no_needles t (h (String.mk t) ?_)
      simp only [pySplit]
      exact List.mem_map_of_mem _ ht
    have hin : pyContains "inbox" labels = false := by
      unfold pyContains
      rw [← joinComma_splitComma labels.data]
      exact no_sub_join "inbox".data (by decide) (by decide) _
        (fun t ht => (htok t ht).1)
    have hsent : pyContains "sent" labels = false := by
      unfold pyContains
      rw [← joinComma_splitComma labels.data]
      exact no_sub_join "sent".data (by decide) (by decide) _
        (fun t ht => (htok t ht).2)
    have hfind : (pySplit labels).find? (fun l => !(excludedTok l)) = none := by
      apply find_none
      intro x hx
      simp [excludedTok, h x hx]
    simp [route, hin, hsent, hfind]
  · intro h
    subst h
    have h1 : pyContains "inbox" "" = false := by decide
    have h2 : pyContains "sent" "" = false := by decide
    have h4 : (pySplit "").find? (fun l => !(excludedTok l)) = some "" := by decide
    simp only [route, h1, h2, h4, Bool.false_eq_true, if_false]
    show pfx ++ "" ++ ".mbox" = pfx ++ ".mbox"
    rw [str_append_empty pfx]

/-- Witness for the amended C1: an all-excluded label routes to `archive`,
and the empty label routes to `{prefix}.mbox`. -/
theorem route_fallback_amended_wit :
    route "split_" "starred,newsletters" = "archive" ∧
    route "x_" "" = "x_" ++ ".mbox" :=
  ⟨(route_fallback_amended "split_" "starred,newsletters").1 (by decide),
    (route_fallback_amended "x_" "").2 rfl⟩

/-- Claim C6 (confirmed): within one run the registry never holds two
buckets with the same key — the first message resolving to a name creates
the bucket and every later one reuses it, so the key list stays duplicate
free whether the run completes or aborts. -/
theorem registry_keys_nodup (pfx : String) (items : List SourceItem) :
    (keysOf (finalState (process_mbox pfx items)).boxes).Nodup :=
  processLoop_nodup pfx items ⟨initBoxes, []⟩ (by decide)

/-- Claim C7 (corrected), counterexample: a message whose append raises
`HeaderParseError` is appended to zero buckets, not exactly one. -/
theorem skipped_message_zero_buckets_cex :
    appearCount (finalState (process_mbox "p"
      [SourceItem.msg ⟨0, some [Segment.text "work"], AddOutcome.headerParseError⟩])).boxes
        0 = 0 ∧
    appearCount (finalState (process_mbox "p"
      [SourceItem.msg ⟨0, some [Segment.text "work"], AddOutcome.headerParseError⟩])).boxes
        0 ≠ 1 :=
  ⟨by decide, by decide⟩

/-- Claim C7 (corrected), amended: in a completed run, a message whose
append succeeds lands in exactly one bucket and a message skipped for
`HeaderParseError` lands in none. -/
theorem append_exactly_once_amended (pfx : String) (msgs : List Message)
    (st : ProcState) (m : Message)
    (hrun : process_mbox pfx (msgs.map SourceItem.msg) = Except.ok st)
    (hm : m ∈ msgs)
    (huniq : (msgs.filter (fun x => decide (x.mid = m.mid))).length = 1) :
    appearCount st.boxes m.mid =
      (if m.addOutcome = AddOutcome.ok then 1 else 0) := by
  have hcount := processLoop_count pfx m.mid msgs ⟨initBoxes, []⟩ st
    ⟨by decide, by decide, by decide⟩ hrun
  have hinit : appearCount (⟨initBoxes, []⟩ : ProcState).boxes m.mid = 0 := rfl
  have hfilter : msgs.filter (fun x => decide (x.mid = m.mid)) = [m] := by
    have hmem : m ∈ msgs.filter (fun x => decide (x.mid = m.mid)) := by
      simp [List.mem_filter, hm]
    obtain ⟨a, ha⟩ := List.length_eq_one.mp huniq
    rw [ha] at hmem
    simp only [List.mem_singleton] at hmem
    rw [ha, hmem]
  have hok : countOkMid msgs m.mid = if m.addOutcome = AddOutcome.ok then 1 else 0 := by
    unfold countOkMid
    rw [hfilter]
    by_cases h : m.addOutcome = AddOutcome.ok <;> simp [h]
  rw [hcount, hinit, hok]
  simp

/-- Witness for the amended C7: one message with a succeeding append appears
in exactly one bucket of the final state. -/
theorem append_exactly_once_amended_wit :
    appearCount (finalState (process_mbox "p"
      (([⟨5, some [Segment.text "work"], AddOutcome.ok⟩] : List Message).map
        SourceItem.msg))).boxes 5 = 1 :=
  append_exactly_once_amended "p" [⟨5, some [Segment.text "work"], AddOutcome.ok⟩]
    (finalState (process_mbox "p"
      (([⟨5, some [Segment.text "work"], AddOutcome.ok⟩] : List Message).map
        SourceItem.msg)))
    ⟨5, some [Segment.text "work"], AddOutcome.ok⟩ rfl
    (List.mem_singleton.mpr rfl) (by decide)

/-- Claim C9 (confirmed): a message whose append raises `HeaderParseError`
is skipped — the loop continues with the remaining items from a state whose
buckets gained no message (only a bucket may have been lazily registered)
and whose log gained exactly one informational line. -/
theorem headerparse_skip_continues (pfx : String) (st : ProcState) (m : Message)
    (rest : List SourceItem) (h : m.addOutcome = AddOutcome.headerParseError) :
    processLoop pfx (SourceItem.msg m :: rest) st =
      processLoop pfx rest ⟨(classify pfx st.boxes (gmailLabelsOf m)).2,
        st.log ++ [skipLine]⟩ ∧
    (∀ i, appearCount (classify pfx st.boxes (gmailLabelsOf m)).2 i =
      appearCount st.boxes i) := by
  constructor
  · simp [processLoop, stepItem_skip_eq pfx st m h]
  · intro i
    exact appearCount_classify pfx st.boxes (gmailLabelsOf m) i

/-- Witness for C9 at a concrete skipped message. -/
theorem headerparse_skip_continues_wit :
    processLoop "p"
        [SourceItem.msg ⟨1, some [Segment.text "work"], AddOutcome.headerParseError⟩]
        ⟨initBoxes, []⟩ =
      processLoop "p" []
        ⟨(classify "p" initBoxes
          (gmailLabelsOf ⟨1, some [Segment.text "work"], AddOutcome.headerParseError⟩)).2,
          [] ++ [skipLine]⟩ ∧
    appearCount (classify "p" initBoxes
      (gmailLabelsOf ⟨1, some [Segment.text "work"], AddOutcome.headerParseError⟩)).2 1 =
      appearCount initBoxes 1 :=
  ⟨(headerparse_skip_continues "p" ⟨initBoxes, []⟩
      ⟨1, some [Segment.text "work"], AddOutcome.headerParseError⟩ [] rfl).1,
    (headerparse_skip_continues "p" ⟨initBoxes, []⟩
      ⟨1, some [Segment.text "work"], AddOutcome.headerParseError⟩ [] rfl).2 1⟩

/-- Claim C10 (confirmed): only `HeaderParseError` is recovered from — any
other exception raised by the append, and any exception raised by source
iteration, is caught nowhere in `process_mbox` and aborts the whole run (the
remaining items are never processed). -/
theorem uncaught_exception_aborts (pfx : String) (st : ProcState) (m : Message)
    (rest : List SourceItem) :
    (m.addOutcome = AddOutcome.otherError →
      processLoop pfx (SourceItem.msg m :: rest) st =
        Except.error ⟨(classify pfx st.boxes (gmailLabelsOf m)).2, st.log⟩) ∧
    processLoop pfx (SourceItem.iterError :: rest) st = Except.error st := by
  constructor
  · intro h
    simp [processLoop, stepItem_err_eq pfx st m h]
  · simp [processLoop, stepItem]

/-- Witness for C10 at a concrete aborting message and a concrete iteration
failure. -/
theorem uncaught_exception_aborts_wit :
    processLoop "p"
        [SourceItem.msg ⟨2, some [Segment.text "work"], AddOutcome.otherError⟩]
        ⟨initBoxes, []⟩ =
      Except.error ⟨(classify "p" initBoxes
        (gmailLabelsOf ⟨2, some [Segment.text "work"], AddOutcome.otherError⟩)).2, []⟩ ∧
    processLoop "p" [SourceItem.iterError] ⟨initBoxes, []⟩ =
      Except.error ⟨initBoxes, []⟩ :=
  ⟨(uncaught_exception_aborts "p" ⟨initBoxes, []⟩
      ⟨2, some [Segment.text "work"], AddOutcome.otherError⟩ []).1 rfl,
    (uncaught_exception_aborts "p" ⟨initBoxes, []⟩
      ⟨2, some [Segment.text "work"], AddOutcome.otherError⟩ []).2⟩
